import Mathlib

/-!
Shallow embedding of wm-ssh (`src/wm_ssh/cli.py`).

Python strings are modelled as lists of characters (`Str`), so that the
Python string operations the code relies on (`splitlines`, `replace`,
`startswith`, `in`) can be defined faithfully and reasoned about by
induction.  File contents are `Option Str` (`none` = the file does not
exist).  Network calls and subprocess launches are modelled as oracles
passed in as function arguments; the operator's answers to confirmation
prompts are booleans.  Definitions come first, then the lemmas and the
theorems about them.
-/

namespace WmSsh

/-- Python strings, modelled as lists of characters. -/
abbrev Str := List Char

/-- The characters Python `str.splitlines` treats as line boundaries:
`\n`, `\r`, `\v` (0x0B), `\f` (0x0C), the separators 0x1C-0x1E, NEL (0x85),
and the Unicode line/paragraph separators U+2028/U+2029. -/
def isLineBoundary (c : Char) : Bool :=
  c == '\n' || c == '\r' || c == '\x0B' || c == '\x0C' ||
  c == '\x1C' || c == '\x1D' || c == '\x1E' || c == '\x85' ||
  c == '\u2028' || c == '\u2029'

/-- Python `str.splitlines`: splits at every line-boundary character, with
the pair `\r\n` counting as a single boundary, drops the terminators, and
produces no trailing empty chunk for a trailing boundary (`"a\n"` gives
`["a"]`, `""` gives `[]`, `"\n\n"` gives `["", ""]`, `"a\r\nb"` gives
`["a", "b"]`). -/
def pySplitlines : Str → List Str
  | [] => []
  | c :: rest =>
    if isLineBoundary c then
      match rest with
      | d :: rest' =>
        if c = '\r' ∧ d = '\n' then [] :: pySplitlines rest'
        else [] :: pySplitlines (d :: rest')
      | [] => [[]]
    else
      match pySplitlines rest with
      | [] => [[c]]
      | l :: ls => (c :: l) :: ls

/-- The on-disk state of a cache file: `none` when the file does not exist,
`some content` otherwise. -/
abbrev FileState := Option Str

/-- Model of `CacheFile.search_host`: if the file exists, scan its lines in
order and return the first line that starts with `partial_host`. -/
def search_host (file : FileState) (partial_host : Str) : Option Str :=
  file.bind fun content =>
    (pySplitlines content).find? fun maybe_host => partial_host.isPrefixOf maybe_host

/-- Python truthiness of an optional string: `None` and `""` are falsy. -/
def truthyO (r : Option Str) : Bool :=
  match r with
  | none => false
  | some s => !s.isEmpty

/-- Model of `CacheFile.add_host`: no-op when `search_host` returns a truthy
hit, otherwise append the hostname plus a newline (creating the file when
it is missing, as the append-mode open does). -/
def add_host (file : FileState) (full_hostname : Str) : FileState :=
  if truthyO (search_host file full_hostname) then file
  else some (file.getD [] ++ full_hostname ++ ['\n'])

/-- Fuel-driven scanner behind `pyReplaceDel`: one unit of fuel per consumed
character, so `s.length` fuel always suffices. -/
def pyReplaceDelAux (pat : Str) : Nat → Str → Str
  | _, [] => []
  | 0, s => s
  | fuel + 1, c :: rest =>
    if pat ≠ [] ∧ pat.isPrefixOf (c :: rest) then
      pyReplaceDelAux pat fuel (rest.drop (pat.length - 1))
    else c :: pyReplaceDelAux pat fuel rest

/-- Python `str.replace(pat, "")` for a non-empty pattern: delete the
leftmost non-overlapping occurrences of `pat`, scanning left to right.
(For an empty `pat` this is the identity; the code only uses patterns
ending in a newline, which are never empty.) -/
def pyReplaceDel (s pat : Str) : Str :=
  pyReplaceDelAux pat s.length s

/-- Model of `CacheFile.remove_host`: delete every occurrence of the
substring `full_hostname ++ "\n"` from the file content via Python
`str.replace`. -/
def remove_host (content : Str) (full_hostname : Str) : Str :=
  pyReplaceDel content (full_hostname ++ ['\n'])

/-- Model of `CacheFile.replace_content`: overwrite the whole file. -/
def replace_content (_file : FileState) (new_content : Str) : FileState :=
  some new_content

/-- Concatenate lines into newline-terminated file content. -/
def joinLines (lines : List Str) : Str :=
  (lines.map (fun l => l ++ ['\n'])).flatten

/-- Outcome of one resolver's `get_host` call as seen by the chain loop: a
returned value, or a raised exception. -/
inductive ResOutcome
  | ok (r : Option Str)
  | err
deriving DecidableEq

/-- The resolver loop of `wm_ssh` (cli.py 417-424): invoke each resolver in
order, catching any exception and logging it; break on the first truthy
result.  Returns how many resolvers were invoked together with `some v`
when the Python variable `full_hostname` was last assigned `v`, and `none`
when every resolver raised and the variable is left unbound (in which case
the Python code crashes with `UnboundLocalError` right after the loop). -/
def runChain : List ResOutcome → Nat × Option (Option Str)
  | [] => (0, none)
  | .err :: rest => ((runChain rest).1 + 1, (runChain rest).2)
  | .ok r :: rest =>
    if truthyO r then (1, some r)
    else ((runChain rest).1 + 1, ((runChain rest).2).or (some r))

/-- The check after the loop (cli.py 426-428): a falsy result or one
identical to the input aborts the invocation, otherwise the resolved name
is used. -/
def chainDecision (resolvers : List ResOutcome) (hostname : Str) : Option Str :=
  match (runChain resolvers).2 with
  | some (some full) => if full = [] ∨ full = hostname then none else some full
  | _ => none

/-- A resolver outcome on which the loop breaks: a returned value that is
truthy (non-`None`, non-empty). -/
def stopsChain (x : ResOutcome) : Bool :=
  match x with
  | .ok r => truthyO r
  | .err => false

/-- A device record as returned by the inventory API: `name`, `site.slug`,
and the `url` of its primary IP when `primary_ip` is non-null. -/
structure Device where
  name : Str
  site_slug : Str
  primary_ip : Option Str

/-- The remote Netbox endpoints, as oracles: `dns_name url` is the
`dns_name` field of the follow-up GET on a primary IP's `url`;
`physical_results q` and `vm_results q` are the `results` arrays of the
device and virtual-machine search endpoints for query `q`. -/
structure NetboxApi where
  dns_name : Str → Str
  physical_results : Str → List Device
  vm_results : Str → List Device

/-- Model of `NetboxResolver.get_fqdn`: when the device has a truthy
`primary_ip`, look up its `dns_name` and return it if non-empty; otherwise
synthesize `{name}.{site.slug}.wmnet`. -/
def get_fqdn (api : NetboxApi) (device : Device) : Str :=
  match device.primary_ip with
  | some url =>
    if api.dns_name url ≠ [] then api.dns_name url
    else device.name ++ (".".toList) ++ device.site_slug ++ (".wmnet".toList)
  | none => device.name ++ (".".toList) ++ device.site_slug ++ (".wmnet".toList)

/-- Model of `NetboxResolver.get_physical`: first truthy FQDN among the
physical device results. -/
def get_physical (api : NetboxApi) (search_query : Str) : Option Str :=
  (api.physical_results search_query).findSome? fun d =>
    if get_fqdn api d ≠ [] then some (get_fqdn api d) else none

/-- Model of `NetboxResolver.get_vm`: first truthy FQDN among the
virtual-machine results. -/
def get_vm (api : NetboxApi) (search_query : Str) : Option Str :=
  (api.vm_results search_query).findSome? fun d =>
    if get_fqdn api d ≠ [] then some (get_fqdn api d) else none

/-- What one `NetboxResolver.get_host` call did: its return value, the
cache file afterwards, and which endpoints were queried. -/
structure NetboxCallResult where
  result : Option Str
  cache : Option FileState
  phys_queried : Bool
  vm_queried : Bool

/-- The cache-consultation step at the top of `NetboxResolver.get_host`:
a truthy hit from the owned cache, when there is one. -/
def netbox_cache_hit (cachefile : Option FileState) (hostname : Str) : Option Str :=
  match cachefile with
  | some f =>
    match search_host f hostname with
    | some m => if m ≠ [] then some m else none
    | none => none
  | none => none

/-- Model of `NetboxResolver.get_host`: return a truthy cache hit
immediately; otherwise query the physical-device endpoint, fall back to
the virtual-machine endpoint only when that result is falsy, and persist a
truthy result in the owned cache. -/
def netbox_get_host (api : NetboxApi) (cachefile : Option FileState)
    (hostname : Str) : NetboxCallResult :=
  match netbox_cache_hit cachefile hostname with
  | some m => ⟨some m, cachefile, false, false⟩
  | none =>
    let phys := get_physical api hostname
    if truthyO phys then
      let cache' :=
        match cachefile with
        | some f => some (add_host f (phys.getD []))
        | none => none
      ⟨phys, cache', true, false⟩
    else
      let full := get_vm api hostname
      let cache' :=
        match cachefile with
        | some f => if truthyO full then some (add_host f (full.getD [])) else some f
        | none => none
      ⟨full, cache', true, true⟩

/-- The cap `Tee.MAX_CAPTURED_STREAM_SIZE`: 1 MiB. -/
def MAX_CAPTURED_STREAM_SIZE : Nat := 1024 * 1024 * 1

/-- A `Tee` wrapper's state: the in-memory capture and everything forwarded
to the wrapped stream so far. -/
structure TeeState where
  captured_stream : Str
  out_stream : Str
deriving DecidableEq

/-- Model of `Tee.write`: append the chunk to the capture only when the
capture's current length is still at most the cap, and always forward the
full chunk to the wrapped stream. -/
def Tee.write (st : TeeState) (s : Str) : TeeState :=
  { captured_stream :=
      if st.captured_stream.length ≤ MAX_CAPTURED_STREAM_SIZE then
        st.captured_stream ++ s
      else st.captured_stream,
    out_stream := st.out_stream ++ s }

/-- A whole sequence of writes through a `Tee`. -/
def Tee.writeAll (st : TeeState) (ws : List Str) : TeeState :=
  ws.foldl Tee.write st

/-- The four cache files constructed at the start of every run
(cli.py 355-358). -/
structure Caches where
  known_hosts : FileState
  netbox : FileState
  openstack : FileState
  direct : FileState
deriving DecidableEq

/-- The `--flush-caches` branch of `wm_ssh` (cli.py 360-363): when the flag
is given and the operator confirms, empty the netbox, openstack-browser and
direct caches via `replace_content` — the known-hosts cache is not touched. -/
def flushCaches (flush_flag confirm : Bool) (c : Caches) : Caches :=
  if flush_flag && confirm then
    { c with
      netbox := replace_content c.netbox [],
      openstack := replace_content c.openstack [],
      direct := replace_content c.direct [] }
  else c

/-- Python's substring test `pat in s`. -/
def containsSub (s pat : Str) : Bool :=
  match s with
  | [] => pat.isEmpty
  | _ :: rest => pat.isPrefixOf s || containsSub rest pat

/-- The identity-changed marker searched for in captured stderr. -/
def warningText : Str :=
  "WARNING: REMOTE HOST IDENTIFICATION HAS CHANGED".toList

/-- Model of `_remove_duplicated_key_if_needed`: true (after running
`ssh-keygen -R`) exactly when the warning marker is present in stderr and
the operator confirms the prompt. -/
def remove_duplicated_key_if_needed (stderr : Str) (confirm : Bool) : Bool :=
  containsSub stderr warningText && confirm

/-- Outcome of one `_do_ssh` launch: clean exit, a
`subprocess.CalledProcessError` carrying the return code and captured
stderr, or any other exception. -/
inductive SshOutcome
  | success
  | procError (returncode : Int) (stderr : Str)
  | otherError
deriving DecidableEq

/-- How a `wm_ssh` invocation ends: a return/exit code, an exception
propagating out, or the `UnboundLocalError` hit when every resolver raised
and `full_hostname` was never assigned. -/
inductive RunExit
  | exitCode (n : Int)
  | raised
  | unboundLocal
deriving DecidableEq

/-- Observable behaviour of one `wm_ssh` invocation: the ssh targets
launched in order, whether the stale key was removed from the trust store,
and how the invocation ended. -/
structure RunResult where
  launches : List Str
  key_removed : Bool
  exit : RunExit
deriving DecidableEq

/-- The ssh target string: `user@hostname` or the bare hostname. -/
def mkTarget (user : Option Str) (hostname : Str) : Str :=
  match user with
  | some u => u ++ ("@".toList) ++ hostname
  | none => hostname

/-- The launch/recovery flow of `wm_ssh` (cli.py 400-445): try the direct
launch; on a `CalledProcessError` whose stderr carries the identity-changed
warning and with operator confirmation, remove the stale key and retry the
exact same launch once (a failure of the retry propagates — there is no
second retry); otherwise fall through to the resolver chain and, when it
yields a non-empty hostname different from the input, launch that resolved
target, mirroring the remote exit code on failure.  `outcomes n` is the
outcome of the n-th launch; `confirm` is the operator's answer to the
key-removal prompt. -/
def wm_ssh_launch (outcomes : Nat → SshOutcome) (confirm : Bool)
    (resolvers : List ResOutcome) (user : Option Str) (hostname : Str) :
    RunResult :=
  let target := mkTarget user hostname
  match outcomes 0 with
  | .success => ⟨[target], false, .exitCode 0⟩
  | .otherError => ⟨[target], false, .raised⟩
  | .procError _ stderr =>
    if remove_duplicated_key_if_needed stderr confirm then
      match outcomes 1 with
      | .success => ⟨[target, target], true, .exitCode 0⟩
      | _ => ⟨[target, target], true, .raised⟩
    else
      match (runChain resolvers).2 with
      | none => ⟨[target], false, .unboundLocal⟩
      | some none => ⟨[target], false, .exitCode 1⟩
      | some (some full) =>
        if full = [] ∨ full = hostname then ⟨[target], false, .exitCode 1⟩
        else
          match outcomes 1 with
          | .success => ⟨[target, mkTarget user full], false, .exitCode 0⟩
          | .procError rc _ => ⟨[target, mkTarget user full], false, .exitCode rc⟩
          | .otherError => ⟨[target, mkTarget user full], false, .raised⟩

lemma isPrefixOf_nil_right (h : Str) : h.isPrefixOf [] = true → h = [] := by
  cases h <;> simp [List.isPrefixOf]

lemma isPrefixOf_self (l : Str) : l.isPrefixOf l = true := by
  induction l <;> simp [List.isPrefixOf, *]

lemma isPrefixOf_append_right (l r : Str) : l.isPrefixOf (l ++ r) = true := by
  induction l <;> simp [List.isPrefixOf, *]

/-- Splitting a single newline-terminated line that is free of
line-boundary characters yields just that line. -/
lemma pySplitlines_single (h : Str) (hb : ∀ c ∈ h, isLineBoundary c = false) :
    pySplitlines (h ++ ['\n']) = [h] := by
  induction h with
  | nil => decide
  | cons c t ih =>
    have hc : isLineBoundary c = false := hb c (List.mem_cons_self c t)
    have ht : ∀ x ∈ t, isLineBoundary x = false :=
      fun x hx => hb x (List.mem_cons_of_mem c hx)
    cases t with
    | nil =>
      have h1 : pySplitlines ['\n'] = [[]] := by decide
      simp [pySplitlines.eq_2, hc, h1]
    | cons d t' =>
      have ih' := ih ht
      simp only [List.cons_append] at ih' ⊢
      simp [pySplitlines.eq_2, hc, ih']

/-- C4 counterexample: for the empty hostname on a file holding one empty
line, `search_host` does return a hit (the empty line), yet `add_host` is
not a no-op — Python's truthiness test treats the empty hit as a miss and
appends anyway; likewise adding the empty hostname twice to a missing file
stores two lines equal to it, not one. -/
theorem add_host_not_idempotent_on_empty :
    (search_host (some ['\n']) []).isSome = true ∧
    add_host (some ['\n']) [] ≠ some ['\n'] ∧
    (pySplitlines ((add_host (add_host none []) []).getD [])).count [] = 2 := by
  decide

/-- C4 (amended): for a non-empty hostname free of line-boundary
characters, `add_host` is a no-op exactly when `search_host` already
returns a hit, otherwise appends the hostname plus a newline; adding the
same hostname twice to a missing file stores exactly one line equal to
it.  (A hostname containing a line boundary such as a carriage return is
split by `splitlines` into pieces the search never matches, so the append
repeats.) -/
theorem add_host_idempotent (file : FileState) (full_hostname : Str)
    (hne : full_hostname ≠ [])
    (hb : ∀ c ∈ full_hostname, isLineBoundary c = false) :
    ((search_host file full_hostname).isSome →
      add_host file full_hostname = file) ∧
    (search_host file full_hostname = none →
      add_host file full_hostname = some (file.getD [] ++ full_hostname ++ ['\n'])) ∧
    (pySplitlines
        ((add_host (add_host none full_hostname) full_hostname).getD [])).count
      full_hostname = 1 := by
  refine ⟨?_, ?_, ?_⟩
  · intro hsome
    obtain ⟨hit, hhit⟩ := Option.isSome_iff_exists.mp hsome
    have hpre : full_hostname.isPrefixOf hit = true := by
      rcases file with - | content
      · simp [search_host] at hhit
      · exact List.find?_some (by simpa [search_host] using hhit)
    have hhitne : hit ≠ [] := by
      intro h
      exact hne (isPrefixOf_nil_right full_hostname (h ▸ hpre))
    simp [add_host, truthyO, hhit, hhitne]
  · intro hnone
    simp [add_host, truthyO, hnone]
  · have h1 : add_host none full_hostname = some (full_hostname ++ ['\n']) := by
      simp [add_host, truthyO, search_host]
    rw [h1]
    have hsearch : search_host (some (full_hostname ++ ['\n'])) full_hostname
        = some full_hostname := by
      simp [search_host, pySplitlines_single full_hostname hb, List.find?,
        isPrefixOf_self]
    have h2 : add_host (some (full_hostname ++ ['\n'])) full_hostname
        = some (full_hostname ++ ['\n']) := by
      simp [add_host, hsearch, truthyO, hne]
    rw [h2]
    simp [pySplitlines_single full_hostname hb, List.count_singleton]

/-- Closed witness for `add_host_idempotent` at hostname `"h"` and the file
containing exactly that line. -/
theorem add_host_idempotent_witness :
    add_host (some ("h\n".toList)) ("h".toList) = some ("h\n".toList) ∧
    (pySplitlines
        ((add_host (add_host none ("h".toList)) ("h".toList)).getD [])).count
      ("h".toList) = 1 := by
  have h := add_host_idempotent (some ("h\n".toList)) ("h".toList)
    (by decide) (by decide)
  exact ⟨h.1 (by decide), h.2.2⟩

lemma pyReplaceDelAux_ge (pat : Str) :
    ∀ fuel (s : Str), s.length ≤ fuel →
      pyReplaceDelAux pat fuel s = pyReplaceDelAux pat s.length s := by
  intro fuel
  induction fuel using Nat.strong_induction_on with
  | _ fuel ih =>
    intro s hs
    cases s with
    | nil => cases fuel <;> rfl
    | cons c rest =>
      cases fuel with
      | zero => simp at hs
      | succ f =>
        have hrest : rest.length ≤ f := by
          simp only [List.length_cons] at hs
          omega
        simp only [List.length_cons, pyReplaceDelAux]
        by_cases hcond : pat ≠ [] ∧ pat.isPrefixOf (c :: rest) = true
        · rw [if_pos hcond, if_pos hcond]
          have hd : (rest.drop (pat.length - 1)).length ≤ rest.length := by
            simp only [List.length_drop]
            omega
          rw [ih f (by omega) _ (hd.trans hrest),
            ih rest.length (by omega) _ hd]
        · rw [if_neg hcond, if_neg hcond, ih f (by omega) rest hrest]

lemma pyReplaceDel_nil (pat : Str) : pyReplaceDel [] pat = [] := rfl

lemma pyReplaceDel_pos (c : Char) (rest pat : Str) (h1 : pat ≠ [])
    (h2 : pat.isPrefixOf (c :: rest) = true) :
    pyReplaceDel (c :: rest) pat = pyReplaceDel (rest.drop (pat.length - 1)) pat := by
  show pyReplaceDelAux pat (c :: rest).length (c :: rest) = _
  simp only [List.length_cons, pyReplaceDelAux]
  rw [if_pos ⟨h1, h2⟩]
  exact pyReplaceDelAux_ge pat rest.length _ (by simp only [List.length_drop]; omega)

lemma pyReplaceDel_neg (c : Char) (rest pat : Str)
    (h : ¬(pat ≠ [] ∧ pat.isPrefixOf (c :: rest) = true)) :
    pyReplaceDel (c :: rest) pat = c :: pyReplaceDel rest pat := by
  show pyReplaceDelAux pat (c :: rest).length (c :: rest) = _
  simp only [List.length_cons, pyReplaceDelAux]
  rw [if_neg h]
  rfl

/-- An occurrence of `pat` at the start of the string deletes it and the
scan resumes right after it. -/
lemma pyReplaceDel_consume (pat rest : Str) (h1 : pat ≠ []) :
    pyReplaceDel (pat ++ rest) pat = pyReplaceDel rest pat := by
  obtain ⟨p, pat', rfl⟩ := List.exists_cons_of_ne_nil h1
  rw [List.cons_append,
    pyReplaceDel_pos p (pat' ++ rest) (p :: pat') h1
      (by rw [← List.cons_append]; exact isPrefixOf_append_right _ _)]
  simp only [List.length_cons, Nat.add_sub_cancel, List.drop_left]

/-- A pattern `hs ++ ['\n']` can only be a prefix of `l ++ '\n' :: rest`
for newline-free `hs` and `l` when `hs` is the whole of `l`: the newline of
the pattern has to land on the newline terminating `l`. -/
lemma newline_pat_prefix_eq (hs : Str) :
    ∀ (l rest : Str), '\n' ∉ hs → '\n' ∉ l →
      (hs ++ ['\n']).isPrefixOf (l ++ '\n' :: rest) = true → hs = l := by
  induction hs with
  | nil =>
    intro l rest _ hl hp
    cases l with
    | nil => rfl
    | cons c t =>
      have hc : c ≠ '\n' := fun e => hl (e ▸ List.mem_cons_self c t)
      simp [List.isPrefixOf, List.cons_append] at hp
      exact (hc hp.symm).elim
  | cons a hs' ih =>
    intro l rest hh hl hp
    have ha : a ≠ '\n' := fun e => hh (e ▸ List.mem_cons_self a hs')
    cases l with
    | nil =>
      simp [List.isPrefixOf, List.cons_append] at hp
      exact absurd hp.1 ha
    | cons c t =>
      simp only [List.cons_append, List.isPrefixOf, Bool.and_eq_true,
        beq_iff_eq] at hp
      have := ih t rest (fun e => hh (List.mem_cons_of_mem a e))
        (fun e => hl (List.mem_cons_of_mem c e)) hp.2
      rw [hp.1, this]

/-- The scan copies a whole newline-terminated line unchanged when the
hostname is not a suffix of the line. -/
lemma pyReplaceDel_skip_line (hs : Str) :
    ∀ (l rest : Str), '\n' ∉ hs → '\n' ∉ l → ¬hs <:+ l →
      pyReplaceDel (l ++ '\n' :: rest) (hs ++ ['\n'])
        = l ++ '\n' :: pyReplaceDel rest (hs ++ ['\n']) := by
  intro l
  induction l with
  | nil =>
    intro rest hh _ hns
    have hne : hs ≠ [] := fun e => hns (e ▸ List.suffix_refl [])
    obtain ⟨a, hs', rfl⟩ := List.exists_cons_of_ne_nil hne
    have ha : a ≠ '\n' := fun e => hh (e ▸ List.mem_cons_self a hs')
    rw [List.nil_append, pyReplaceDel_neg]
    · rfl
    · rintro ⟨-, hp⟩
      simp [List.isPrefixOf, List.cons_append] at hp
      exact ha hp.1
  | cons c t ih =>
    intro rest hh hl hns
    have step : ¬((hs ++ ['\n']) ≠ [] ∧
        (hs ++ ['\n']).isPrefixOf (c :: (t ++ '\n' :: rest)) = true) := by
      rintro ⟨-, hp⟩
      have : hs = c :: t :=
        newline_pat_prefix_eq hs (c :: t) rest hh hl (by simpa [List.cons_append] using hp)
      exact hns (this ▸ List.suffix_refl _)
    rw [List.cons_append, pyReplaceDel_neg _ _ _ step,
      ih rest hh (fun e => hl (List.mem_cons_of_mem c e))
        (fun h => hns (h.trans (List.suffix_cons c t)))]
    rfl

/-- C5 counterexample: on the file content `"xfoo\n"`, whose single line
`"xfoo"` is not equal to `"foo"`, the claim says `remove_host "foo"` leaves
the file unchanged; the code's substring replace instead turns it into
`"x"`. -/
theorem remove_host_not_linewise :
    (pySplitlines ("xfoo\n".toList)).count ("foo".toList) = 0 ∧
    remove_host ("xfoo\n".toList) ("foo".toList) = ("x".toList) := by
  decide

/-- C5 (amended): `remove_host` deletes the leftmost non-overlapping
occurrences of the substring `full_hostname ++ "\n"` anywhere in the
content.  When the content is a concatenation of newline-terminated,
newline-free lines and the hostname is a suffix of no line other than
itself, this removes exactly the lines equal to the hostname and leaves
every other line unchanged. -/
theorem remove_host_filters (full_hostname : Str) (lines : List Str)
    (hh : '\n' ∉ full_hostname) (hl : ∀ l ∈ lines, '\n' ∉ l)
    (hsuf : ∀ l ∈ lines, full_hostname <:+ l → l = full_hostname) :
    remove_host (joinLines lines) full_hostname
      = joinLines (lines.filter (fun l => l ≠ full_hostname)) := by
  induction lines with
  | nil => simp [joinLines, remove_host, pyReplaceDel_nil]
  | cons l rest ih =>
    have hl0 : '\n' ∉ l := hl l (List.mem_cons_self l rest)
    have hlr : ∀ x ∈ rest, '\n' ∉ x := fun x hx => hl x (List.mem_cons_of_mem l hx)
    have hsufr : ∀ x ∈ rest, full_hostname <:+ x → x = full_hostname :=
      fun x hx => hsuf x (List.mem_cons_of_mem l hx)
    have hjoin : joinLines (l :: rest) = (l ++ ['\n']) ++ joinLines rest := by
      simp [joinLines]
    by_cases hcase : l = full_hostname
    · subst hcase
      rw [hjoin, remove_host, pyReplaceDel_consume _ _ (by simp), ← remove_host,
        ih hlr hsufr]
      simp [List.filter_cons]
    · have hns : ¬full_hostname <:+ l := fun h => hcase (hsuf l (List.mem_cons_self l rest) h)
      rw [hjoin, List.append_assoc, List.singleton_append, remove_host,
        pyReplaceDel_skip_line full_hostname l _ hh hl0 hns, ← remove_host,
        ih hlr hsufr]
      simp [List.filter_cons, hcase, joinLines]

/-- Closed witness for `remove_host_filters`: removing `"foo"` from the
two-line file `"a\nfoo\n"` leaves exactly the line `"a"`. -/
theorem remove_host_filters_witness :
    remove_host (joinLines [("a".toList), ("foo".toList)]) ("foo".toList)
      = joinLines [("a".toList)] := by
  have h := remove_host_filters ("foo".toList) [("a".toList), ("foo".toList)]
    (by decide) (by decide)
    (by
      intro l hl hsuf
      fin_cases hl
      · exact absurd hsuf (by decide)
      · rfl)
  simpa using h

lemma runChain_err (rest : List ResOutcome) :
    runChain (.err :: rest) = ((runChain rest).1 + 1, (runChain rest).2) := rfl

lemma runChain_ok (r : Option Str) (rest : List ResOutcome) :
    runChain (.ok r :: rest)
      = if truthyO r then (1, some r)
        else ((runChain rest).1 + 1, ((runChain rest).2).or (some r)) := rfl

/-- C1 counterexample: the first resolver echoes the input `"db1"`; the
claim says the chain keeps going and consults the second resolver (which
would return `"db1.eqiad.wmnet"`), but the code breaks on any truthy
result: only one resolver is invoked, the echoed input is kept, and the
chain outcome is failure. -/
theorem chain_stops_on_identical :
    runChain [.ok (some ("db1".toList)), .ok (some ("db1.eqiad.wmnet".toList))]
      = (1, some (some ("db1".toList))) ∧
    chainDecision [.ok (some ("db1".toList)), .ok (some ("db1.eqiad.wmnet".toList))]
      ("db1".toList) = none := by
  decide

/-- C1 (amended): the chain stops at the first resolver that returns a
truthy hostname — even one identical to the input — and resolvers after it
are never invoked; when that result equals the input, the whole chain
outcome is failure (the code aborts after the loop rather than consulting
later resolvers). -/
theorem chain_first_truthy (pre rest : List ResOutcome) (r : Option Str)
    (hostname : Str) (hpre : ∀ x ∈ pre, stopsChain x = false)
    (hr : truthyO r = true) :
    runChain (pre ++ .ok r :: rest) = (pre.length + 1, some r) ∧
    (r = some hostname →
      chainDecision (pre ++ .ok r :: rest) hostname = none) := by
  have main : runChain (pre ++ .ok r :: rest) = (pre.length + 1, some r) := by
    induction pre with
    | nil => simp [runChain_ok, hr]
    | cons x pre' ih =>
      have hx : stopsChain x = false := hpre x (List.mem_cons_self x pre')
      have ih' := ih fun y hy => hpre y (List.mem_cons_of_mem x hy)
      cases x with
      | err =>
        rw [List.cons_append, runChain_err, ih']
        simp [List.length_cons]
      | ok r' =>
        have hr' : truthyO r' = false := by simpa [stopsChain] using hx
        rw [List.cons_append, runChain_ok, if_neg (by simp [hr']), ih']
        simp [Option.or, List.length_cons]
  refine ⟨main, fun hid => ?_⟩
  subst hid
  simp [chainDecision, main]

/-- Closed witness for `chain_first_truthy`: a raising resolver followed by
one echoing the input — both are invoked, the echo is kept, the chain
outcome is failure. -/
theorem chain_first_truthy_witness :
    runChain [.err, .ok (some ("db1".toList))] = (2, some (some ("db1".toList))) ∧
    chainDecision [.err, .ok (some ("db1".toList))] ("db1".toList) = none := by
  have h := chain_first_truthy [.err] [] (some ("db1".toList)) ("db1".toList)
    (by decide) (by decide)
  exact ⟨by simpa using h.1, h.2 rfl⟩

/-- C2: a raising resolver is non-fatal — every resolver in a block of
raising ones is still invoked, no exception escapes the loop (`runChain` is
total), and the loop's count and result continue exactly as if the chain
had started right after the raising block. -/
theorem chain_errors_nonfatal (pre rest : List ResOutcome)
    (hpre : ∀ x ∈ pre, x = .err) :
    (runChain (pre ++ rest)).1 = pre.length + (runChain rest).1 ∧
    (runChain (pre ++ rest)).2 = (runChain rest).2 := by
  induction pre with
  | nil => simp
  | cons x pre' ih =>
    have hx : x = .err := hpre x (List.mem_cons_self x pre')
    have ih' := ih fun y hy => hpre y (List.mem_cons_of_mem x hy)
    subst hx
    constructor
    · rw [List.cons_append, runChain_err]
      simp only [List.length_cons, ih'.1]
      omega
    · rw [List.cons_append, runChain_err]
      exact ih'.2

/-- Closed witness for `chain_errors_nonfatal`: one raising resolver before
a succeeding one — both invoked, result taken from the second. -/
theorem chain_errors_nonfatal_witness :
    (runChain [ResOutcome.err, .ok (some ("db1.eqiad.wmnet".toList))]).1
      = 1 + (runChain [ResOutcome.ok (some ("db1.eqiad.wmnet".toList))]).1 ∧
    (runChain [ResOutcome.err, .ok (some ("db1.eqiad.wmnet".toList))]).2
      = (runChain [ResOutcome.ok (some ("db1.eqiad.wmnet".toList))]).2 := by
  exact chain_errors_nonfatal [.err] [.ok (some ("db1.eqiad.wmnet".toList))]
    (by decide)

/-- The helper `get_physical` never returns an empty string (its loop only
returns truthy FQDNs). -/
lemma get_physical_ne_empty (api : NetboxApi) (q : Str) :
    ∀ f, get_physical api q = some f → f ≠ [] := by
  unfold get_physical
  induction api.physical_results q with
  | nil => intro f h; simp [List.findSome?] at h
  | cons d rest ih =>
    intro f h
    rw [List.findSome?] at h
    by_cases hd : get_fqdn api d ≠ []
    · rw [if_pos hd] at h
      cases h
      exact hd
    · rw [if_neg hd] at h
      exact ih f h

/-- C3: when the cache yields no truthy hit, `get_host` queries the
physical-device endpoint, and the virtual-machine endpoint is queried
exactly when the physical phase returned nothing; a physical hit is
returned as the result with no VM query. -/
theorem netbox_physical_short_circuits (api : NetboxApi)
    (cachefile : Option FileState) (hostname : Str)
    (hmiss : ∀ f, cachefile = some f → truthyO (search_host f hostname) = false) :
    (netbox_get_host api cachefile hostname).phys_queried = true ∧
    ((netbox_get_host api cachefile hostname).vm_queried = true ↔
      get_physical api hostname = none) ∧
    (∀ full, get_physical api hostname = some full →
      (netbox_get_host api cachefile hostname).result = some full ∧
      (netbox_get_host api cachefile hostname).vm_queried = false) := by
  have hHit : netbox_cache_hit cachefile hostname = none := by
    unfold netbox_cache_hit
    rcases cachefile with - | f
    · rfl
    · rcases hs : search_host f hostname with - | m
      · simp [hs]
      · have hm := hmiss f rfl
        rw [hs] at hm
        have hmnil : m = [] := by simpa [truthyO, List.isEmpty_iff] using hm
        simp [hs, hmnil]
  rcases hp : get_physical api hostname with - | full
  · refine ⟨?_, ?_, ?_⟩
    · simp [netbox_get_host, hHit, hp, truthyO]
    · simp [netbox_get_host, hHit, hp, truthyO]
    · intro f hf
      cases hf
  · have hfne : full ≠ [] := get_physical_ne_empty api hostname full hp
    have ht : truthyO (some full) = true := by
      obtain ⟨a, t, rfl⟩ := List.exists_cons_of_ne_nil hfne
      rfl
    refine ⟨?_, ?_, ?_⟩
    · simp [netbox_get_host, hHit, hp, ht]
    · simp [netbox_get_host, hHit, hp, ht]
    · intro f hf
      cases hf
      exact ⟨by simp [netbox_get_host, hHit, hp, ht],
        by simp [netbox_get_host, hHit, hp, ht]⟩

/-- Closed witness for `netbox_physical_short_circuits`: no cache, one
physical device — the physical endpoint is queried, the VM endpoint is
not, and the device's FQDN is returned. -/
theorem netbox_physical_short_circuits_witness :
    (netbox_get_host
        ⟨fun _ => [], fun _ => [⟨("db1".toList), ("eqiad".toList), none⟩],
          fun _ => []⟩
        none ("db1".toList)).vm_queried = false ∧
    (netbox_get_host
        ⟨fun _ => [], fun _ => [⟨("db1".toList), ("eqiad".toList), none⟩],
          fun _ => []⟩
        none ("db1".toList)).result = some ("db1.eqiad.wmnet".toList) := by
  have h := netbox_physical_short_circuits
    ⟨fun _ => [], fun _ => [⟨("db1".toList), ("eqiad".toList), none⟩], fun _ => []⟩
    none ("db1".toList) (fun f hf => by cases hf)
  have hp : get_physical
      ⟨fun _ => [], fun _ => [⟨("db1".toList), ("eqiad".toList), none⟩], fun _ => []⟩
      ("db1".toList) = some ("db1.eqiad.wmnet".toList) := by decide
  obtain ⟨hres, hvm⟩ := h.2.2 ("db1.eqiad.wmnet".toList) hp
  exact ⟨hvm, hres⟩

/-- C6: `get_fqdn` synthesizes `{name}.{site_slug}.wmnet` when the device
has no primary IP or when the primary IP publishes an empty `dns_name`,
and returns the published `dns_name` when it is non-empty. -/
theorem get_fqdn_spec (api : NetboxApi) (device : Device) :
    (device.primary_ip = none →
      get_fqdn api device
        = device.name ++ (".".toList) ++ device.site_slug ++ (".wmnet".toList)) ∧
    (∀ url, device.primary_ip = some url → api.dns_name url = [] →
      get_fqdn api device
        = device.name ++ (".".toList) ++ device.site_slug ++ (".wmnet".toList)) ∧
    (∀ url, device.primary_ip = some url → api.dns_name url ≠ [] →
      get_fqdn api device = api.dns_name url) := by
  refine ⟨?_, ?_, ?_⟩
  · intro h
    simp [get_fqdn, h]
  · intro url h hdns
    simp [get_fqdn, h, hdns]
  · intro url h hdns
    simp [get_fqdn, h, hdns]

/-- Closed witness for `get_fqdn_spec`: device `db1` at site `eqiad` with
no primary IP resolves to `db1.eqiad.wmnet`. -/
theorem get_fqdn_spec_witness :
    get_fqdn ⟨fun _ => [], fun _ => [], fun _ => []⟩
        ⟨("db1".toList), ("eqiad".toList), none⟩
      = ("db1.eqiad.wmnet".toList) := by
  have h := (get_fqdn_spec ⟨fun _ => [], fun _ => [], fun _ => []⟩
    ⟨("db1".toList), ("eqiad".toList), none⟩).1 rfl
  rw [h]
  decide

/-- C9 counterexample: a single write of 1 MiB + 1 characters to a fresh
`Tee` is captured whole — the capture's length exceeds the claimed 1 MiB
invariant, because the cap is checked before appending. -/
theorem tee_cap_exceeded :
    (Tee.write ⟨[], []⟩
        (List.replicate (MAX_CAPTURED_STREAM_SIZE + 1) 'a')).captured_stream.length
      > MAX_CAPTURED_STREAM_SIZE := by
  simp [Tee.write, List.length_replicate]

/-- C9 (amended): the capture can overshoot the cap by at most one write:
if every written chunk has length at most `M`, then captured size at most
`cap + M` is an invariant preserved by every write; and every write is
forwarded in full — the wrapped stream receives exactly the concatenation
of all chunks. -/
theorem tee_write_bounded (ws : List Str) (M : Nat) (st : TeeState)
    (hcap : st.captured_stream.length ≤ MAX_CAPTURED_STREAM_SIZE + M)
    (hw : ∀ s ∈ ws, s.length ≤ M) :
    (Tee.writeAll st ws).captured_stream.length
      ≤ MAX_CAPTURED_STREAM_SIZE + M ∧
    (Tee.writeAll st ws).out_stream = st.out_stream ++ ws.flatten := by
  induction ws generalizing st with
  | nil => simpa [Tee.writeAll] using hcap
  | cons s rest ih =>
    have hs : s.length ≤ M := hw s (List.mem_cons_self s rest)
    have hcap' : (Tee.write st s).captured_stream.length
        ≤ MAX_CAPTURED_STREAM_SIZE + M := by
      by_cases h : st.captured_stream.length ≤ MAX_CAPTURED_STREAM_SIZE
      · simp only [Tee.write, if_pos h, List.length_append]
        omega
      · simp only [Tee.write, if_neg h]
        exact hcap
    have ih' := ih (Tee.write st s) hcap'
      (fun x hx => hw x (List.mem_cons_of_mem s hx))
    refine ⟨ih'.1, ?_⟩
    rw [show Tee.writeAll st (s :: rest) = Tee.writeAll (Tee.write st s) rest from rfl,
      ih'.2]
    simp [Tee.write, List.append_assoc]

/-- Closed witness for `tee_write_bounded`: two small writes through a
fresh `Tee` stay within cap + 2 and are forwarded in order. -/
theorem tee_write_bounded_witness :
    (Tee.writeAll ⟨[], []⟩ [("ab".toList), ("c".toList)]).captured_stream.length
      ≤ MAX_CAPTURED_STREAM_SIZE + 2 ∧
    (Tee.writeAll ⟨[], []⟩ [("ab".toList), ("c".toList)]).out_stream
      = [] ++ [("ab".toList), ("c".toList)].flatten := by
  exact tee_write_bounded [("ab".toList), ("c".toList)] 2 ⟨[], []⟩
    (by simp) (by decide)

/-- C10: the confirmed flush empties the netbox, openstack-browser and
direct cache files and leaves the known-hosts cache file unchanged, even
though all four caches exist. -/
theorem flush_caches_frame (c : Caches) :
    (flushCaches true true c).netbox = some [] ∧
    (flushCaches true true c).openstack = some [] ∧
    (flushCaches true true c).direct = some [] ∧
    (flushCaches true true c).known_hosts = c.known_hosts := by
  simp [flushCaches, replace_content]

lemma mkTarget_inj (user : Option Str) (a b : Str)
    (h : mkTarget user a = mkTarget user b) : a = b := by
  cases user with
  | none => exact h
  | some u => exact List.append_cancel_left h

/-- C7: when the direct launch fails with the identity-changed warning in
its stderr and the operator confirms, the stale key is removed and the
exact same launch is retried exactly once — the trace holds precisely two
launches of the same target, whatever the retry's outcome (a clean retry
returns 0, a failing retry propagates with no further attempt). -/
theorem key_mismatch_single_retry (outcomes : Nat → SshOutcome)
    (resolvers : List ResOutcome) (user : Option Str) (hostname : Str)
    (rc : Int) (stderr : Str) (h0 : outcomes 0 = .procError rc stderr)
    (hw : containsSub stderr warningText = true) :
    (wm_ssh_launch outcomes true resolvers user hostname).launches
      = [mkTarget user hostname, mkTarget user hostname] ∧
    (wm_ssh_launch outcomes true resolvers user hostname).key_removed = true ∧
    (outcomes 1 = .success →
      (wm_ssh_launch outcomes true resolvers user hostname).exit = .exitCode 0) ∧
    (outcomes 1 ≠ .success →
      (wm_ssh_launch outcomes true resolvers user hostname).exit = .raised) := by
  have hkey : remove_duplicated_key_if_needed stderr true = true := by
    simp [remove_duplicated_key_if_needed, hw]
  refine ⟨?_, ?_, ?_, ?_⟩ <;>
    simp only [wm_ssh_launch, h0, hkey, if_true]
  · cases outcomes 1 <;> rfl
  · cases outcomes 1 <;> rfl
  · intro h1
    rw [h1]
  · intro h1
    cases h : outcomes 1
    · exact absurd h h1
    · rfl
    · rfl

/-- Closed witness for `key_mismatch_single_retry`: warning in stderr,
operator confirms, retry succeeds. -/
theorem key_mismatch_single_retry_witness :
    (wm_ssh_launch
        (fun n => if n = 0 then .procError 255 warningText else .success)
        true [] none ("db1".toList)).launches = [("db1".toList), ("db1".toList)] ∧
    (wm_ssh_launch
        (fun n => if n = 0 then .procError 255 warningText else .success)
        true [] none ("db1".toList)).key_removed = true := by
  have h := key_mismatch_single_retry
    (fun n => if n = 0 then .procError 255 warningText else .success)
    [] none ("db1".toList) 255 warningText rfl (by decide)
  exact ⟨h.1, h.2.1⟩

/-- C8 counterexample: the direct launch fails with the identity-changed
warning, the operator declines — but instead of failing, control falls
through to the resolver chain, which resolves `"db1"` to
`"db1.eqiad.wmnet"`; that target is launched and the invocation succeeds
with exit code 0, contradicting "the invocation fails without any retry of
the launch". -/
theorem decline_leads_to_resolver_chain :
    wm_ssh_launch
        (fun n => if n = 0 then .procError 255 warningText else .success)
        false [.ok (some ("db1.eqiad.wmnet".toList))] none ("db1".toList)
      = ⟨[("db1".toList), ("db1.eqiad.wmnet".toList)], false, .exitCode 0⟩ := by
  decide

/-- C8 (amended): when the direct launch fails with the identity-changed
warning and the operator declines, the key is not removed and the direct
launch is never retried — its target is launched exactly once; control
passes to the resolver chain, and whenever the chain outcome is falsy or
identical to the input the invocation ends with exit code 1 and no further
launch (but a chain result that is a different hostname is launched and
may succeed). -/
theorem decline_no_retry (outcomes : Nat → SshOutcome)
    (resolvers : List ResOutcome) (user : Option Str) (hostname : Str)
    (rc : Int) (stderr : Str) (h0 : outcomes 0 = .procError rc stderr)
    (hw : containsSub stderr warningText = true) :
    (wm_ssh_launch outcomes false resolvers user hostname).key_removed = false ∧
    (wm_ssh_launch outcomes false resolvers user hostname).launches.count
        (mkTarget user hostname) = 1 ∧
    ((runChain resolvers).2 = some none ∨ (runChain resolvers).2 = some (some []) ∨
        (runChain resolvers).2 = some (some hostname) →
      wm_ssh_launch outcomes false resolvers user hostname
        = ⟨[mkTarget user hostname], false, .exitCode 1⟩) := by
  have hkey : remove_duplicated_key_if_needed stderr false = false := by
    simp [remove_duplicated_key_if_needed]
  rcases hr : (runChain resolvers).2 with - | fh
  · have hred : wm_ssh_launch outcomes false resolvers user hostname
        = ⟨[mkTarget user hostname], false, .unboundLocal⟩ := by
      simp only [wm_ssh_launch, h0, hkey, Bool.false_eq_true, if_false, hr]
    refine ⟨by simp [hred], by simp [hred], ?_⟩
    rintro (h | h | h) <;> cases h
  · rcases fh with - | full
    · have hred : wm_ssh_launch outcomes false resolvers user hostname
          = ⟨[mkTarget user hostname], false, .exitCode 1⟩ := by
        simp only [wm_ssh_launch, h0, hkey, Bool.false_eq_true, if_false, hr]
      exact ⟨by simp [hred], by simp [hred], fun _ => hred⟩
    · by_cases hfull : full = [] ∨ full = hostname
      · have hred : wm_ssh_launch outcomes false resolvers user hostname
            = ⟨[mkTarget user hostname], false, .exitCode 1⟩ := by
          simp only [wm_ssh_launch, h0, hkey, Bool.false_eq_true, if_false, hr]
          rw [if_pos hfull]
        exact ⟨by simp [hred], by simp [hred], fun _ => hred⟩
      · have hne : mkTarget user full ≠ mkTarget user hostname := by
          intro h
          exact hfull (Or.inr (mkTarget_inj user full hostname h))
        have hlaunch : (wm_ssh_launch outcomes false resolvers user hostname).launches
            = [mkTarget user hostname, mkTarget user full] := by
          simp only [wm_ssh_launch, h0, hkey, Bool.false_eq_true, if_false, hr]
          rw [if_neg hfull]
          cases outcomes 1 <;> rfl
        have hkeyr : (wm_ssh_launch outcomes false resolvers user hostname).key_removed
            = false := by
          simp only [wm_ssh_launch, h0, hkey, Bool.false_eq_true, if_false, hr]
          rw [if_neg hfull]
          cases outcomes 1 <;> rfl
        refine ⟨hkeyr, ?_, ?_⟩
        · simp [hlaunch, List.count_cons, hne]
        · rintro (h | h | h)
          · cases h
          · exact absurd (Or.inl (by injection h with h'; injection h')) hfull
          · exact absurd (Or.inr (by injection h with h'; injection h')) hfull

/-- Closed witness for `decline_no_retry`: the chain echoes the input, so
declining ends the invocation with exit code 1 and a single launch. -/
theorem decline_no_retry_witness :
    wm_ssh_launch
        (fun n => if n = 0 then .procError 255 warningText else .success)
        false [.ok (some ("db1".toList))] none ("db1".toList)
      = ⟨[("db1".toList)], false, .exitCode 1⟩ := by
  have h := decline_no_retry
    (fun n => if n = 0 then .procError 255 warningText else .success)
    [.ok (some ("db1".toList))] none ("db1".toList) 255 warningText rfl
    (by decide)
  exact h.2.2 (Or.inr (Or.inr (by decide)))

end WmSsh
